import Mathlib

/-!
Verification of the storage layer of the cosmwasm-NFT-marketplace contract
(`src/state.rs`): the Ask and Bid indexed stores, their secondary-index
projections, expiry semantics, the hook registries and the transactional
discipline.

Shallow embedding conventions:
* `Addr` is a bech32 address string; `TokenId` is a `u32` value, embedded as
  `Nat` (no arithmetic is performed on it).
* `Uint128` wraps a `u128` magnitude; `Uint128.u128` mirrors the accessor
  `Uint128::u128()` used by the price projections.
* `Timestamp` is a nanosecond count (cosmwasm-std stores `Timestamp` as
  `Uint64` nanoseconds); `Timestamp.seconds` mirrors `Timestamp::seconds()`,
  i.e. division by 10^9.
* The indexed-map engine (`cw_storage_plus::IndexedMap` / `MultiIndex`) is not
  part of `src/`; it is modelled from the spec (§4.1): a primary ordered table
  plus per-index tables whose entries pair the projection result with the
  primary key ("projection ++ primary key"), where `save` first retracts the
  old record's index entries and `remove` retracts all of them.  The
  underlying key-value store is modelled by association lists in which a
  write overwrites any entry under the same key.
-/

abbrev Addr := String

abbrev TokenId := Nat

abbrev Uint128 := Nat

def Uint128.u128 (n : Uint128) : Nat := n

abbrev Timestamp := Nat

def Timestamp.seconds (t : Timestamp) : Nat := t / 1000000000

/-- `BlockInfo` from cosmwasm-std: block height, block time, chain id.
Only `time` is consulted by `is_expired`. -/
structure BlockInfo where
  height : Nat
  time : Timestamp
  chain_id : String
deriving DecidableEq

/-- The `Order` trait of `state.rs`: one required accessor `expires_at`. -/
class Order (α : Type) where
  expires_at : α → Timestamp

/-- Default method of the `Order` trait:
`fn is_expired(&self, block) -> bool { self.expires_at() <= block.time }`. -/
def Order.is_expired {α : Type} [Order α] (x : α) (block : BlockInfo) : Bool :=
  decide (Order.expires_at x ≤ block.time)

inductive SaleType
  | FixedPrice
  | Auction
deriving DecidableEq

/-- The `Ask` record of `state.rs`. -/
structure Ask where
  sale_type : SaleType
  collection : Addr
  token_id : TokenId
  seller : Addr
  price : Uint128
  funds_recipient : Option Addr
  reserve_for : Option Addr
  finders_fee_bps : Option Nat
  expires_at : Timestamp
  is_active : Bool
deriving DecidableEq

instance : Order Ask := ⟨Ask.expires_at⟩

/-- Primary key for asks: (collection, token_id). -/
abbrev AskKey := Addr × TokenId

/-- Convenience ask key constructor. -/
def ask_key (collection : Addr) (token_id : TokenId) : AskKey :=
  (collection, token_id)

/-- The `Bid` record of `state.rs`. -/
structure Bid where
  collection : Addr
  token_id : TokenId
  bidder : Addr
  price : Uint128
  finders_fee_bps : Option Nat
  expires_at : Timestamp
deriving DecidableEq

def Bid.new (collection : Addr) (token_id : TokenId) (bidder : Addr)
    (price : Uint128) (finders_fee_bps : Option Nat) (expires : Timestamp) : Bid :=
  { collection := collection, token_id := token_id, bidder := bidder,
    price := price, finders_fee_bps := finders_fee_bps, expires_at := expires }

instance : Order Bid := ⟨Bid.expires_at⟩

/-- Primary key for bids: (collection, token_id, bidder). -/
abbrev BidKey := Addr × TokenId × Addr

/-- Convenience bid key constructor. -/
def bid_key (collection : Addr) (token_id : TokenId) (bidder : Addr) : BidKey :=
  (collection, token_id, bidder)

/-! ### Secondary-index projections

Each mirrors one `MultiIndex::new(|_pk, d| ...)` closure of `state.rs`.  The
source closures receive the serialized primary key `_pk` and ignore it; here
the first argument is the (unserialized) primary key, likewise ignored. -/

def AskIndicies.collection (_pk : AskKey) (d : Ask) : Addr :=
  d.collection

def AskIndicies.collection_price (_pk : AskKey) (d : Ask) : Addr × Nat :=
  (d.collection, Uint128.u128 d.price)

def AskIndicies.seller (_pk : AskKey) (d : Ask) : Addr :=
  d.seller

def BidIndicies.collection (_pk : BidKey) (d : Bid) : Addr :=
  d.collection

def BidIndicies.collection_token_id (_pk : BidKey) (d : Bid) : Addr × TokenId :=
  (d.collection, d.token_id)

def BidIndicies.collection_price (_pk : BidKey) (d : Bid) : Addr × Nat :=
  (d.collection, Uint128.u128 d.price)

def BidIndicies.bidder (_pk : BidKey) (d : Bid) : Addr :=
  d.bidder

/-- `state.rs` comment: cannot include `Timestamp` in an index, so the
timestamp is converted to `seconds` and stored as `u64`. -/
def BidIndicies.bidder_expires_at (_pk : BidKey) (d : Bid) : Addr × Nat :=
  (d.bidder, Timestamp.seconds d.expires_at)

/-! ### Key-value primitives

Modelled from the spec: the raw ordered KV substrate beneath
`cw_storage_plus` is not in `src/`.  A table is an association list; a write
overwrites any existing entry under the same key, a delete removes the entry
under the key (if any). -/

def alookup {K V : Type} [DecidableEq K] : List (K × V) → K → Option V
  | [], _ => none
  | p :: ps, k => if p.1 = k then some p.2 else alookup ps k

/-- Drop the entry stored under key `k` (a KV store holds at most one). -/
def eraseKey {K V : Type} [DecidableEq K] : List (K × V) → K → List (K × V)
  | [], _ => []
  | p :: ps, k => if p.1 = k then eraseKey ps k else p :: eraseKey ps k

def mapSave {K V : Type} [DecidableEq K] (m : List (K × V)) (k : K) (v : V) :
    List (K × V) :=
  (k, v) :: eraseKey m k

def mapRemove {K V : Type} [DecidableEq K] (m : List (K × V)) (k : K) :
    List (K × V) :=
  eraseKey m k

/-- Drop the raw entry `e` (a KV store holds at most one copy of a key). -/
def eraseEntry {A : Type} [DecidableEq A] : List A → A → List A
  | [], _ => []
  | x :: xs, e => if x = e then eraseEntry xs e else x :: eraseEntry xs e

/-- KV write of a secondary-index entry (the entry itself is the full key:
projection result paired with primary key). -/
def kvInsert {A : Type} [DecidableEq A] (e : A) (l : List A) : List A :=
  e :: eraseEntry l e

/-- KV delete of a secondary-index entry. -/
def kvRemove {A : Type} [DecidableEq A] (e : A) (l : List A) : List A :=
  eraseEntry l e

/-! ### Indexed-map engine

Modelled from the spec (§4.1): `save(key, record)` loads the old record,
retracts its index contributions, then inserts the new record's entries and
stores the record; `remove(key)` retracts all contributions. -/

/-- `MultiIndex::save`: insert the entry `(projection, primary key)`. -/
def idxSave {K V I : Type} [DecidableEq K] [DecidableEq I]
    (proj : K → V → I) (k : K) (v : V) (idx : List (I × K)) : List (I × K) :=
  kvInsert (proj k v, k) idx

/-- `MultiIndex::remove`: delete the entry of the old record. -/
def idxRemove {K V I : Type} [DecidableEq K] [DecidableEq I]
    (proj : K → V → I) (k : K) (o : V) (idx : List (I × K)) : List (I × K) :=
  kvRemove (proj k o, k) idx

/-- Retract the index contributions of the old record at `k`, if one exists. -/
def idxRetract {K V I : Type} [DecidableEq K] [DecidableEq I]
    (proj : K → V → I) (k : K) (old : Option V) (idx : List (I × K)) :
    List (I × K) :=
  match old with
  | some o => idxRemove proj k o idx
  | none => idx

/-- Index update performed by `IndexedMap::save`: retract the old entry,
then insert the new one. -/
def idxReplace {K V I : Type} [DecidableEq K] [DecidableEq I]
    (proj : K → V → I) (k : K) (old : Option V) (v : V) (idx : List (I × K)) :
    List (I × K) :=
  idxSave proj k v (idxRetract proj k old idx)

/-- The Ask store: the primary table of `asks()` plus its three secondary
index tables (`asks__collection`, `asks__collection_price`, `asks__seller`). -/
structure AskStore where
  primary : List (AskKey × Ask)
  idx_collection : List (Addr × AskKey)
  idx_collection_price : List ((Addr × Nat) × AskKey)
  idx_seller : List (Addr × AskKey)

def AskStore.empty : AskStore :=
  ⟨[], [], [], []⟩

/-- `IndexedMap::save` on the Ask store. -/
def AskStore.save (s : AskStore) (k : AskKey) (v : Ask) : AskStore :=
  let old := alookup s.primary k
  { primary := mapSave s.primary k v,
    idx_collection := idxReplace AskIndicies.collection k old v s.idx_collection,
    idx_collection_price :=
      idxReplace AskIndicies.collection_price k old v s.idx_collection_price,
    idx_seller := idxReplace AskIndicies.seller k old v s.idx_seller }

/-- `IndexedMap::remove` on the Ask store. -/
def AskStore.remove (s : AskStore) (k : AskKey) : AskStore :=
  let old := alookup s.primary k
  { primary := mapRemove s.primary k,
    idx_collection := idxRetract AskIndicies.collection k old s.idx_collection,
    idx_collection_price :=
      idxRetract AskIndicies.collection_price k old s.idx_collection_price,
    idx_seller := idxRetract AskIndicies.seller k old s.idx_seller }

inductive AskOp
  | save (k : AskKey) (v : Ask)
  | remove (k : AskKey)

def AskStore.applyOp (s : AskStore) : AskOp → AskStore
  | .save k v => s.save k v
  | .remove k => s.remove k

/-- Run a sequence of save/remove operations from the empty Ask store. -/
def AskStore.run (ops : List AskOp) : AskStore :=
  ops.foldl AskStore.applyOp AskStore.empty

/-- The Bid store: the primary table of `bids()` plus its five secondary
index tables. -/
structure BidStore where
  primary : List (BidKey × Bid)
  idx_collection : List (Addr × BidKey)
  idx_collection_token_id : List ((Addr × TokenId) × BidKey)
  idx_collection_price : List ((Addr × Nat) × BidKey)
  idx_bidder : List (Addr × BidKey)
  idx_bidder_expires_at : List ((Addr × Nat) × BidKey)

def BidStore.empty : BidStore :=
  ⟨[], [], [], [], [], []⟩

/-- `IndexedMap::save` on the Bid store. -/
def BidStore.save (s : BidStore) (k : BidKey) (v : Bid) : BidStore :=
  let old := alookup s.primary k
  { primary := mapSave s.primary k v,
    idx_collection := idxReplace BidIndicies.collection k old v s.idx_collection,
    idx_collection_token_id :=
      idxReplace BidIndicies.collection_token_id k old v s.idx_collection_token_id,
    idx_collection_price :=
      idxReplace BidIndicies.collection_price k old v s.idx_collection_price,
    idx_bidder := idxReplace BidIndicies.bidder k old v s.idx_bidder,
    idx_bidder_expires_at :=
      idxReplace BidIndicies.bidder_expires_at k old v s.idx_bidder_expires_at }

/-- `IndexedMap::remove` on the Bid store. -/
def BidStore.remove (s : BidStore) (k : BidKey) : BidStore :=
  let old := alookup s.primary k
  { primary := mapRemove s.primary k,
    idx_collection := idxRetract BidIndicies.collection k old s.idx_collection,
    idx_collection_token_id :=
      idxRetract BidIndicies.collection_token_id k old s.idx_collection_token_id,
    idx_collection_price :=
      idxRetract BidIndicies.collection_price k old s.idx_collection_price,
    idx_bidder := idxRetract BidIndicies.bidder k old s.idx_bidder,
    idx_bidder_expires_at :=
      idxRetract BidIndicies.bidder_expires_at k old s.idx_bidder_expires_at }

inductive BidOp
  | save (k : BidKey) (v : Bid)
  | remove (k : BidKey)

def BidStore.applyOp (s : BidStore) : BidOp → BidStore
  | .save k v => s.save k v
  | .remove k => s.remove k

/-- Run a sequence of save/remove operations from the empty Bid store. -/
def BidStore.run (ops : List BidOp) : BidStore :=
  ops.foldl BidStore.applyOp BidStore.empty

/-! ### Lemmas about the KV primitives -/

theorem alookup_eraseKey {K V : Type} [DecidableEq K]
    (m : List (K × V)) (k k' : K) :
    alookup (eraseKey m k) k' = if k' = k then none else alookup m k' := by
  induction m with
  | nil => simp [alookup, eraseKey]
  | cons p ps ih =>
    by_cases hp : p.1 = k
    · simp only [eraseKey, if_pos hp, ih, alookup]
      by_cases hk : k' = k
      · simp [hk]
      · have hpk : ¬ p.1 = k' := fun h => hk (h.symm.trans hp)
        simp [hk, hpk]
    · simp only [eraseKey, if_neg hp, alookup, ih]
      by_cases hpk : p.1 = k'
      · have hk : ¬ k' = k := fun h => hp (hpk.trans h)
        simp [hpk, hk]
      · simp [hpk]

theorem alookup_mapSave {K V : Type} [DecidableEq K]
    (m : List (K × V)) (k k' : K) (v : V) :
    alookup (mapSave m k v) k' =
      if k' = k then some v else alookup m k' := by
  by_cases h : k' = k
  · subst h
    simp [mapSave, alookup]
  · have h2 : ¬ k = k' := fun hh => h hh.symm
    simp [mapSave, alookup, h2, alookup_eraseKey, h]

theorem alookup_mapRemove {K V : Type} [DecidableEq K]
    (m : List (K × V)) (k k' : K) :
    alookup (mapRemove m k) k' =
      if k' = k then none else alookup m k' := by
  simp [mapRemove, alookup_eraseKey]

theorem mem_eraseEntry {A : Type} [DecidableEq A] (e x : A) (l : List A) :
    x ∈ eraseEntry l e ↔ x ∈ l ∧ x ≠ e := by
  induction l with
  | nil => simp [eraseEntry]
  | cons y ys ih =>
    by_cases hy : y = e
    · subst hy
      rw [eraseEntry, if_pos rfl, ih, List.mem_cons]
      constructor
      · rintro ⟨hx, hne⟩
        exact ⟨Or.inr hx, hne⟩
      · rintro ⟨(rfl | hx), hne⟩
        · exact absurd rfl hne
        · exact ⟨hx, hne⟩
    · simp only [eraseEntry, if_neg hy, List.mem_cons, ih]
      constructor
      · rintro (rfl | ⟨hx, hne⟩)
        · exact ⟨Or.inl rfl, hy⟩
        · exact ⟨Or.inr hx, hne⟩
      · rintro ⟨(rfl | hx), hne⟩
        · exact Or.inl rfl
        · exact Or.inr ⟨hx, hne⟩

theorem nodup_eraseEntry {A : Type} [DecidableEq A] (e : A) (l : List A)
    (h : l.Nodup) : (eraseEntry l e).Nodup := by
  induction l with
  | nil => simp [eraseEntry]
  | cons y ys ih =>
    obtain ⟨hy, hys⟩ := List.nodup_cons.1 h
    by_cases he : y = e
    · simpa [eraseEntry, if_pos he] using ih hys
    · rw [eraseEntry, if_neg he]
      refine List.nodup_cons.2 ⟨?_, ih hys⟩
      intro hmem
      exact hy ((mem_eraseEntry e y ys).1 hmem).1

theorem mem_kvInsert {A : Type} [DecidableEq A] (e x : A) (l : List A) :
    x ∈ kvInsert e l ↔ x = e ∨ (x ∈ l ∧ x ≠ e) := by
  simp only [kvInsert, List.mem_cons, mem_eraseEntry]

theorem mem_kvRemove {A : Type} [DecidableEq A] (e x : A) (l : List A) :
    x ∈ kvRemove e l ↔ x ∈ l ∧ x ≠ e :=
  mem_eraseEntry e x l

theorem nodup_kvInsert {A : Type} [DecidableEq A] (e : A) (l : List A)
    (h : l.Nodup) : (kvInsert e l).Nodup := by
  refine List.nodup_cons.2 ⟨?_, nodup_eraseEntry e l h⟩
  intro hmem
  exact ((mem_eraseEntry e e l).1 hmem).2 rfl

theorem nodup_kvRemove {A : Type} [DecidableEq A] (e : A) (l : List A)
    (h : l.Nodup) : (kvRemove e l).Nodup :=
  nodup_eraseEntry e l h

/-! ### The per-index consistency invariant

`IdxInv proj primary idx` says the secondary-index table is exactly the set
of pairs `(projection of the stored record, primary key)` over the live
primary records, with no duplicates: the content of spec §4.1/§8. -/

def IdxInv {K V I : Type} [DecidableEq K] [DecidableEq I]
    (proj : K → V → I) (primary : List (K × V)) (idx : List (I × K)) : Prop :=
  idx.Nodup ∧
    ∀ i k, (i, k) ∈ idx ↔ ∃ v, alookup primary k = some v ∧ proj k v = i

theorem IdxInv_empty {K V I : Type} [DecidableEq K] [DecidableEq I]
    (proj : K → V → I) : IdxInv proj ([] : List (K × V)) [] := by
  refine ⟨List.nodup_nil, ?_⟩
  intro i k
  simp [alookup]

theorem mem_idxRetract {K V I : Type} [DecidableEq K] [DecidableEq I]
    (proj : K → V → I) (k : K) (old : Option V) (idx : List (I × K))
    (i : I) (k' : K) :
    (i, k') ∈ idxRetract proj k old idx ↔
      (i, k') ∈ idx ∧ ∀ o, old = some o → (i, k') ≠ (proj k o, k) := by
  cases old with
  | none => simp [idxRetract]
  | some o => simp [idxRetract, idxRemove, mem_kvRemove]

theorem IdxInv_save {K V I : Type} [DecidableEq K] [DecidableEq I]
    (proj : K → V → I) (m : List (K × V)) (idx : List (I × K))
    (k : K) (v : V) (h : IdxInv proj m idx) :
    IdxInv proj (mapSave m k v) (idxReplace proj k (alookup m k) v idx) := by
  obtain ⟨hnd, hmem⟩ := h
  refine ⟨?_, ?_⟩
  · simp only [idxReplace, idxSave]
    refine nodup_kvInsert _ _ ?_
    cases hold : alookup m k with
    | none => simpa [idxRetract] using hnd
    | some o =>
      simp only [idxRetract, idxRemove]
      exact nodup_kvRemove _ _ hnd
  · intro i k'
    simp only [idxReplace, idxSave]
    rw [mem_kvInsert, mem_idxRetract, alookup_mapSave]
    by_cases hk : k' = k
    · subst hk
      rw [if_pos rfl]
      constructor
      · rintro (he | ⟨⟨hin, hex⟩, _⟩)
        · rw [Prod.mk.injEq] at he
          exact ⟨v, rfl, he.1.symm⟩
        · obtain ⟨w, hw, hpw⟩ := (hmem i k').1 hin
          exact (hex w hw (by rw [hpw])).elim
      · rintro ⟨w, hw, hpw⟩
        injection hw with hv
        subst hv
        left
        rw [Prod.mk.injEq]
        exact ⟨hpw.symm, rfl⟩
    · rw [if_neg hk]
      constructor
      · rintro (he | ⟨⟨hin, _⟩, _⟩)
        · rw [Prod.mk.injEq] at he
          exact absurd he.2 hk
        · exact (hmem i k').1 hin
      · intro hex
        right
        have hne : (i, k') ≠ (proj k v, k) := by
          rw [Ne, Prod.mk.injEq]
          rintro ⟨-, h2⟩
          exact hk h2
        refine ⟨⟨(hmem i k').2 hex, ?_⟩, hne⟩
        intro o _ he
        rw [Prod.mk.injEq] at he
        exact hk he.2

theorem IdxInv_remove {K V I : Type} [DecidableEq K] [DecidableEq I]
    (proj : K → V → I) (m : List (K × V)) (idx : List (I × K))
    (k : K) (h : IdxInv proj m idx) :
    IdxInv proj (mapRemove m k) (idxRetract proj k (alookup m k) idx) := by
  obtain ⟨hnd, hmem⟩ := h
  refine ⟨?_, ?_⟩
  · cases hold : alookup m k with
    | none => simpa [idxRetract] using hnd
    | some o =>
      simp only [idxRetract, idxRemove]
      exact nodup_kvRemove _ _ hnd
  · intro i k'
    rw [mem_idxRetract, alookup_mapRemove]
    by_cases hk : k' = k
    · subst hk
      rw [if_pos rfl]
      constructor
      · rintro ⟨hin, hex⟩
        obtain ⟨w, hw, hpw⟩ := (hmem i k').1 hin
        exact (hex w hw (by rw [hpw])).elim
      · rintro ⟨w, hw, -⟩
        exact absurd hw (by simp)
    · rw [if_neg hk]
      constructor
      · rintro ⟨hin, -⟩
        exact (hmem i k').1 hin
      · intro hex
        refine ⟨(hmem i k').2 hex, ?_⟩
        intro o _ he
        rw [Prod.mk.injEq] at he
        exact hk he.2

/-! ### Primary-key uniqueness -/

/-- The primary table holds at most one record per key. -/
def KeysNodup {K V : Type} (m : List (K × V)) : Prop :=
  (m.map Prod.fst).Nodup

theorem eraseKey_sublist {K V : Type} [DecidableEq K]
    (m : List (K × V)) (k : K) : List.Sublist (eraseKey m k) m := by
  induction m with
  | nil => simp [eraseKey]
  | cons p ps ih =>
    by_cases hp : p.1 = k
    · rw [eraseKey, if_pos hp]
      exact ih.cons p
    · rw [eraseKey, if_neg hp]
      exact ih.cons₂ p

theorem fst_ne_of_mem_eraseKey {K V : Type} [DecidableEq K]
    (m : List (K × V)) (k : K) (p : K × V) (h : p ∈ eraseKey m k) :
    p.1 ≠ k := by
  induction m with
  | nil => simp [eraseKey] at h
  | cons q qs ih =>
    by_cases hq : q.1 = k
    · rw [eraseKey, if_pos hq] at h
      exact ih h
    · rw [eraseKey, if_neg hq] at h
      rcases List.mem_cons.1 h with rfl | h
      · exact hq
      · exact ih h

theorem keysNodup_mapSave {K V : Type} [DecidableEq K]
    (m : List (K × V)) (k : K) (v : V) (h : KeysNodup m) :
    KeysNodup (mapSave m k v) := by
  refine List.nodup_cons.2 ⟨?_, ?_⟩
  · intro hmem
    obtain ⟨p, hp, hfst⟩ := List.mem_map.1 hmem
    exact fst_ne_of_mem_eraseKey m k p hp hfst
  · exact h.sublist ((eraseKey_sublist m k).map Prod.fst)

theorem keysNodup_mapRemove {K V : Type} [DecidableEq K]
    (m : List (K × V)) (k : K) (h : KeysNodup m) :
    KeysNodup (mapRemove m k) :=
  h.sublist ((eraseKey_sublist m k).map Prod.fst)

/-! ### Store invariants and their preservation -/

/-- Full consistency invariant of the Ask store: unique primary keys, and
each of the three secondary indices exactly mirrors the primary table. -/
def AskStore.Inv (s : AskStore) : Prop :=
  KeysNodup s.primary ∧
    IdxInv AskIndicies.collection s.primary s.idx_collection ∧
    IdxInv AskIndicies.collection_price s.primary s.idx_collection_price ∧
    IdxInv AskIndicies.seller s.primary s.idx_seller

theorem askStore_inv_empty : AskStore.empty.Inv :=
  ⟨List.nodup_nil, IdxInv_empty _, IdxInv_empty _, IdxInv_empty _⟩

theorem askStore_inv_save (s : AskStore) (k : AskKey) (v : Ask) (h : s.Inv) :
    (s.save k v).Inv := by
  obtain ⟨h0, h1, h2, h3⟩ := h
  exact ⟨keysNodup_mapSave _ _ _ h0, IdxInv_save _ _ _ _ _ h1,
    IdxInv_save _ _ _ _ _ h2, IdxInv_save _ _ _ _ _ h3⟩

theorem askStore_inv_remove (s : AskStore) (k : AskKey) (h : s.Inv) :
    (s.remove k).Inv := by
  obtain ⟨h0, h1, h2, h3⟩ := h
  exact ⟨keysNodup_mapRemove _ _ h0, IdxInv_remove _ _ _ _ h1,
    IdxInv_remove _ _ _ _ h2, IdxInv_remove _ _ _ _ h3⟩

theorem askStore_inv_foldl (ops : List AskOp) (s : AskStore) (h : s.Inv) :
    (ops.foldl AskStore.applyOp s).Inv := by
  induction ops generalizing s with
  | nil => exact h
  | cons op ops ih =>
    cases op with
    | save k v => exact ih _ (askStore_inv_save s k v h)
    | remove k => exact ih _ (askStore_inv_remove s k h)

theorem askStore_inv_run (ops : List AskOp) : (AskStore.run ops).Inv :=
  askStore_inv_foldl ops AskStore.empty askStore_inv_empty

/-- Full consistency invariant of the Bid store: unique primary keys, and
each of the five secondary indices exactly mirrors the primary table. -/
def BidStore.Inv (s : BidStore) : Prop :=
  KeysNodup s.primary ∧
    IdxInv BidIndicies.collection s.primary s.idx_collection ∧
    IdxInv BidIndicies.collection_token_id s.primary s.idx_collection_token_id ∧
    IdxInv BidIndicies.collection_price s.primary s.idx_collection_price ∧
    IdxInv BidIndicies.bidder s.primary s.idx_bidder ∧
    IdxInv BidIndicies.bidder_expires_at s.primary s.idx_bidder_expires_at

theorem bidStore_inv_empty : BidStore.empty.Inv :=
  ⟨List.nodup_nil, IdxInv_empty _, IdxInv_empty _, IdxInv_empty _,
    IdxInv_empty _, IdxInv_empty _⟩

theorem bidStore_inv_save (s : BidStore) (k : BidKey) (v : Bid) (h : s.Inv) :
    (s.save k v).Inv := by
  obtain ⟨h0, h1, h2, h3, h4, h5⟩ := h
  exact ⟨keysNodup_mapSave _ _ _ h0, IdxInv_save _ _ _ _ _ h1,
    IdxInv_save _ _ _ _ _ h2, IdxInv_save _ _ _ _ _ h3,
    IdxInv_save _ _ _ _ _ h4, IdxInv_save _ _ _ _ _ h5⟩

theorem bidStore_inv_remove (s : BidStore) (k : BidKey) (h : s.Inv) :
    (s.remove k).Inv := by
  obtain ⟨h0, h1, h2, h3, h4, h5⟩ := h
  exact ⟨keysNodup_mapRemove _ _ h0, IdxInv_remove _ _ _ _ h1,
    IdxInv_remove _ _ _ _ h2, IdxInv_remove _ _ _ _ h3,
    IdxInv_remove _ _ _ _ h4, IdxInv_remove _ _ _ _ h5⟩

theorem bidStore_inv_foldl (ops : List BidOp) (s : BidStore) (h : s.Inv) :
    (ops.foldl BidStore.applyOp s).Inv := by
  induction ops generalizing s with
  | nil => exact h
  | cons op ops ih =>
    cases op with
    | save k v => exact ih _ (bidStore_inv_save s k v h)
    | remove k => exact ih _ (bidStore_inv_remove s k h)

theorem bidStore_inv_run (ops : List BidOp) : (BidStore.run ops).Inv :=
  bidStore_inv_foldl ops BidStore.empty bidStore_inv_empty

/-! ### Unfolding equations for the store operations -/

theorem askStore_save_def (s : AskStore) (k : AskKey) (v : Ask) :
    s.save k v =
      { primary := mapSave s.primary k v,
        idx_collection :=
          idxReplace AskIndicies.collection k (alookup s.primary k) v
            s.idx_collection,
        idx_collection_price :=
          idxReplace AskIndicies.collection_price k (alookup s.primary k) v
            s.idx_collection_price,
        idx_seller :=
          idxReplace AskIndicies.seller k (alookup s.primary k) v
            s.idx_seller } :=
  rfl

theorem bidStore_save_def (s : BidStore) (k : BidKey) (v : Bid) :
    s.save k v =
      { primary := mapSave s.primary k v,
        idx_collection :=
          idxReplace BidIndicies.collection k (alookup s.primary k) v
            s.idx_collection,
        idx_collection_token_id :=
          idxReplace BidIndicies.collection_token_id k (alookup s.primary k) v
            s.idx_collection_token_id,
        idx_collection_price :=
          idxReplace BidIndicies.collection_price k (alookup s.primary k) v
            s.idx_collection_price,
        idx_bidder :=
          idxReplace BidIndicies.bidder k (alookup s.primary k) v
            s.idx_bidder,
        idx_bidder_expires_at :=
          idxReplace BidIndicies.bidder_expires_at k (alookup s.primary k) v
            s.idx_bidder_expires_at } :=
  rfl

/-! ### Claims -/

/-- C1: for every sequence of save/remove operations on the Ask store, each
secondary index (collection; collection+price; seller) holds, without
duplicates, exactly the pairs (projection of the stored record, primary key)
over the live primary records — so a scan of the index returns exactly the
primary keys whose current record matches that projection, with no dangling
entries; likewise for the Bid store's five indices. -/
theorem index_scan_consistency (aops : List AskOp) (bops : List BidOp) :
    (IdxInv AskIndicies.collection
        (AskStore.run aops).primary (AskStore.run aops).idx_collection ∧
      IdxInv AskIndicies.collection_price
        (AskStore.run aops).primary (AskStore.run aops).idx_collection_price ∧
      IdxInv AskIndicies.seller
        (AskStore.run aops).primary (AskStore.run aops).idx_seller) ∧
    (IdxInv BidIndicies.collection
        (BidStore.run bops).primary (BidStore.run bops).idx_collection ∧
      IdxInv BidIndicies.collection_token_id
        (BidStore.run bops).primary (BidStore.run bops).idx_collection_token_id ∧
      IdxInv BidIndicies.collection_price
        (BidStore.run bops).primary (BidStore.run bops).idx_collection_price ∧
      IdxInv BidIndicies.bidder
        (BidStore.run bops).primary (BidStore.run bops).idx_bidder ∧
      IdxInv BidIndicies.bidder_expires_at
        (BidStore.run bops).primary (BidStore.run bops).idx_bidder_expires_at) := by
  obtain ⟨-, a1, a2, a3⟩ := askStore_inv_run aops
  obtain ⟨-, b1, b2, b3, b4, b5⟩ := bidStore_inv_run bops
  exact ⟨⟨a1, a2, a3⟩, b1, b2, b3, b4, b5⟩

/-- C2: for Asks and Bids alike, `is_expired(record, block)` is true exactly
when `block.time >= record.expires_at`; in particular a record whose
`expires_at` equals the block time is already expired (boundary inclusive). -/
theorem is_expired_iff_time_ge (a : Ask) (b : Bid) (block : BlockInfo)
    (ht : Nat) (cid : String) :
    (Order.is_expired a block = true ↔ block.time ≥ a.expires_at) ∧
    (Order.is_expired b block = true ↔ block.time ≥ b.expires_at) ∧
    Order.is_expired a ⟨ht, a.expires_at, cid⟩ = true ∧
    Order.is_expired b ⟨ht, b.expires_at, cid⟩ = true := by
  refine ⟨?_, ?_, ?_, ?_⟩ <;>
    simp [Order.is_expired, Order.expires_at, ge_iff_le]

/-- C4: primary keys are unique — at every reachable state the Ask store
holds at most one record per (collection, token_id) and the Bid store at most
one per (collection, token_id, bidder); saving under an existing key replaces
the record: afterwards the key maps to the new record and every primary entry
under that key is the new one. -/
theorem primary_keys_unique (aops : List AskOp) (bops : List BidOp) :
    KeysNodup (AskStore.run aops).primary ∧
    KeysNodup (BidStore.run bops).primary ∧
    (∀ (k : AskKey) (v : Ask),
      alookup ((AskStore.run aops).save k v).primary k = some v ∧
      ∀ p ∈ ((AskStore.run aops).save k v).primary, p.1 = k → p = (k, v)) ∧
    (∀ (k : BidKey) (v : Bid),
      alookup ((BidStore.run bops).save k v).primary k = some v ∧
      ∀ p ∈ ((BidStore.run bops).save k v).primary, p.1 = k → p = (k, v)) := by
  refine ⟨(askStore_inv_run aops).1, (bidStore_inv_run bops).1, ?_, ?_⟩
  · intro k v
    rw [askStore_save_def]
    refine ⟨by rw [alookup_mapSave, if_pos rfl], ?_⟩
    intro p hp hk
    rcases List.mem_cons.1 hp with rfl | hp
    · rfl
    · exact absurd hk (fst_ne_of_mem_eraseKey _ _ _ hp)
  · intro k v
    rw [bidStore_save_def]
    refine ⟨by rw [alookup_mapSave, if_pos rfl], ?_⟩
    intro p hp hk
    rcases List.mem_cons.1 hp with rfl | hp
    · rfl
    · exact absurd hk (fst_ne_of_mem_eraseKey _ _ _ hp)

/-- C10: every secondary-index projection ignores its primary-key argument
and reads only the record's own fields; consequently, whatever primary key a
record is saved under (even one disagreeing with its embedded
collection/token_id/bidder fields), the index entries produced by the save
are computed from the record's embedded fields. -/
theorem projections_ignore_primary_key :
    (∀ (pk pk' : AskKey) (d : Ask),
      AskIndicies.collection pk d = AskIndicies.collection pk' d ∧
      AskIndicies.collection_price pk d = AskIndicies.collection_price pk' d ∧
      AskIndicies.seller pk d = AskIndicies.seller pk' d) ∧
    (∀ (pk pk' : BidKey) (d : Bid),
      BidIndicies.collection pk d = BidIndicies.collection pk' d ∧
      BidIndicies.collection_token_id pk d = BidIndicies.collection_token_id pk' d ∧
      BidIndicies.collection_price pk d = BidIndicies.collection_price pk' d ∧
      BidIndicies.bidder pk d = BidIndicies.bidder pk' d ∧
      BidIndicies.bidder_expires_at pk d = BidIndicies.bidder_expires_at pk' d) ∧
    (∀ (s : AskStore) (k : AskKey) (v : Ask),
      (v.collection, k) ∈ (s.save k v).idx_collection ∧
      ((v.collection, Uint128.u128 v.price), k) ∈ (s.save k v).idx_collection_price ∧
      (v.seller, k) ∈ (s.save k v).idx_seller) ∧
    (∀ (s : BidStore) (k : BidKey) (v : Bid),
      (v.collection, k) ∈ (s.save k v).idx_collection ∧
      ((v.collection, v.token_id), k) ∈ (s.save k v).idx_collection_token_id ∧
      ((v.collection, Uint128.u128 v.price), k) ∈ (s.save k v).idx_collection_price ∧
      (v.bidder, k) ∈ (s.save k v).idx_bidder ∧
      ((v.bidder, Timestamp.seconds v.expires_at), k) ∈
        (s.save k v).idx_bidder_expires_at) := by
  refine ⟨fun pk pk' d => ⟨rfl, rfl, rfl⟩,
    fun pk pk' d => ⟨rfl, rfl, rfl, rfl, rfl⟩, ?_, ?_⟩
  · intro s k v
    exact ⟨List.mem_cons_self _ _, List.mem_cons_self _ _,
      List.mem_cons_self _ _⟩
  · intro s k v
    exact ⟨List.mem_cons_self _ _, List.mem_cons_self _ _,
      List.mem_cons_self _ _, List.mem_cons_self _ _, List.mem_cons_self _ _⟩

/-- C3: saving, under the same key, a copy of a stored Ask whose price
differs relocates it in the (collection, price) index: the old
(collection, old_price) entry is gone, the (collection, new_price) entry is
present, and it is the only entry of that index for this primary key. -/
theorem price_change_relocates_entry (ops : List AskOp) (k : AskKey) (a : Ask)
    (p' : Uint128)
    (hstored : alookup (AskStore.run ops).primary k = some a)
    (hne : p' ≠ a.price) :
    ((a.collection, Uint128.u128 a.price), k) ∉
        ((AskStore.run ops).save k { a with price := p' }).idx_collection_price ∧
    ((a.collection, Uint128.u128 p'), k) ∈
        ((AskStore.run ops).save k { a with price := p' }).idx_collection_price ∧
    ∀ e ∈ ((AskStore.run ops).save k { a with price := p' }).idx_collection_price,
      e.2 = k → e = ((a.collection, Uint128.u128 p'), k) := by
  have hinv := (askStore_inv_run ops).2.2.1
  have hinv' := IdxInv_save AskIndicies.collection_price _ _ k
    ({ a with price := p' }) hinv
  obtain ⟨-, hiff⟩ := hinv'
  rw [askStore_save_def]
  refine ⟨?_, ?_, ?_⟩
  · intro hin
    obtain ⟨w, hw, hpw⟩ := (hiff (a.collection, Uint128.u128 a.price) k).1 hin
    rw [alookup_mapSave, if_pos rfl] at hw
    injection hw with hw2
    subst hw2
    have : ({ a with price := p' } : Ask).price = a.price := by
      have h2 := congrArg Prod.snd hpw
      simpa [AskIndicies.collection_price, Uint128.u128] using h2
    exact hne (by simpa using this)
  · refine (hiff (a.collection, Uint128.u128 p') k).2
      ⟨{ a with price := p' }, ?_, rfl⟩
    rw [alookup_mapSave, if_pos rfl]
  · rintro ⟨i, k2⟩ hin he
    dsimp only at he
    subst he
    obtain ⟨w, hw, hpw⟩ := (hiff i k2).1 hin
    rw [alookup_mapSave, if_pos rfl] at hw
    injection hw with hw2
    subst hw2
    rw [← hpw]
    rfl

/-- Closed witness for `price_change_relocates_entry` at concrete inputs:
one ask at key ("c", 7) with price 100 re-saved at price 120. -/
def askW : Ask :=
  { sale_type := SaleType.FixedPrice, collection := "c", token_id := 7,
    seller := "s", price := 100, funds_recipient := none,
    reserve_for := none, finders_fee_bps := none, expires_at := 1000,
    is_active := true }

theorem price_change_relocates_entry_witness :
    ((("c", Uint128.u128 (100 : Uint128)), (("c", 7) : AskKey)) ∉
        ((AskStore.run [AskOp.save ("c", 7) askW]).save ("c", 7)
          { askW with price := 120 }).idx_collection_price) ∧
    ((("c", Uint128.u128 (120 : Uint128)), (("c", 7) : AskKey)) ∈
        ((AskStore.run [AskOp.save ("c", 7) askW]).save ("c", 7)
          { askW with price := 120 }).idx_collection_price) ∧
    ∀ e ∈ ((AskStore.run [AskOp.save ("c", 7) askW]).save ("c", 7)
        { askW with price := 120 }).idx_collection_price,
      e.2 = (("c", 7) : AskKey) →
        e = (("c", Uint128.u128 (120 : Uint128)), (("c", 7) : AskKey)) := by
  have h := price_change_relocates_entry [AskOp.save ("c", 7) askW]
    ("c", 7) askW 120 (by decide) (by decide)
  simpa [askW] using h

/-- C5: two bids on the same (collection, token_id) from distinct bidders are
stored simultaneously under their distinct primary keys and both appear in
the (collection, token_id) secondary index — the primary key appended to the
projection prevents any collision. -/
theorem distinct_bidders_coexist (ops : List BidOp) (c : Addr) (t : TokenId)
    (b1 b2 : Addr) (d1 d2 : Bid) (hb : b1 ≠ b2)
    (h1c : d1.collection = c) (h1t : d1.token_id = t)
    (h2c : d2.collection = c) (h2t : d2.token_id = t) :
    alookup (((BidStore.run ops).save (bid_key c t b1) d1).save
        (bid_key c t b2) d2).primary (bid_key c t b1) = some d1 ∧
    alookup (((BidStore.run ops).save (bid_key c t b1) d1).save
        (bid_key c t b2) d2).primary (bid_key c t b2) = some d2 ∧
    ((c, t), bid_key c t b1) ∈
      (((BidStore.run ops).save (bid_key c t b1) d1).save
        (bid_key c t b2) d2).idx_collection_token_id ∧
    ((c, t), bid_key c t b2) ∈
      (((BidStore.run ops).save (bid_key c t b1) d1).save
        (bid_key c t b2) d2).idx_collection_token_id := by
  have hkne : bid_key c t b1 ≠ bid_key c t b2 := by
    intro h
    apply hb
    have h2 := congrArg (fun p => p.2.2) h
    simpa [bid_key] using h2
  have hinv1 := IdxInv_save BidIndicies.collection_token_id _ _
    (bid_key c t b1) d1 ((bidStore_inv_run ops).2.2.1)
  have hinv2 := IdxInv_save BidIndicies.collection_token_id _ _
    (bid_key c t b2) d2 hinv1
  obtain ⟨-, hiff⟩ := hinv2
  simp only [bidStore_save_def]
  have hl1 : alookup (mapSave (mapSave (BidStore.run ops).primary
      (bid_key c t b1) d1) (bid_key c t b2) d2) (bid_key c t b1) = some d1 := by
    rw [alookup_mapSave, if_neg hkne, alookup_mapSave, if_pos rfl]
  have hl2 : alookup (mapSave (mapSave (BidStore.run ops).primary
      (bid_key c t b1) d1) (bid_key c t b2) d2) (bid_key c t b2) = some d2 := by
    rw [alookup_mapSave, if_pos rfl]
  refine ⟨hl1, hl2, ?_, ?_⟩
  · refine (hiff (c, t) (bid_key c t b1)).2 ⟨d1, hl1, ?_⟩
    simp [BidIndicies.collection_token_id, h1c, h1t]
  · refine (hiff (c, t) (bid_key c t b2)).2 ⟨d2, hl2, ?_⟩
    simp [BidIndicies.collection_token_id, h2c, h2t]

def bidW1 : Bid := Bid.new "c" 7 "b1" 80 none 1000

def bidW2 : Bid := Bid.new "c" 7 "b2" 120 none 1000

/-- Closed witness for `distinct_bidders_coexist`: bidders "b1" and "b2"
both bid on token 7 of collection "c". -/
theorem distinct_bidders_coexist_witness :
    alookup (((BidStore.run []).save (bid_key "c" 7 "b1") bidW1).save
        (bid_key "c" 7 "b2") bidW2).primary (bid_key "c" 7 "b1") = some bidW1 ∧
    alookup (((BidStore.run []).save (bid_key "c" 7 "b1") bidW1).save
        (bid_key "c" 7 "b2") bidW2).primary (bid_key "c" 7 "b2") = some bidW2 ∧
    (("c", 7), bid_key "c" 7 "b1") ∈
      (((BidStore.run []).save (bid_key "c" 7 "b1") bidW1).save
        (bid_key "c" 7 "b2") bidW2).idx_collection_token_id ∧
    (("c", 7), bid_key "c" 7 "b2") ∈
      (((BidStore.run []).save (bid_key "c" 7 "b1") bidW1).save
        (bid_key "c" 7 "b2") bidW2).idx_collection_token_id :=
  distinct_bidders_coexist [] "c" 7 "b1" "b2" bidW1 bidW2
    (by decide) rfl rfl rfl rfl

/-- C7: every stored Bid's entry in the (bidder, expiry) index carries the
expiry truncated to whole seconds (`expires_at / 10^9` nanoseconds), and is
the only entry of that index for its primary key, while the primary record
keeps the full-precision timestamp. -/
theorem bidder_expiry_index_seconds (ops : List BidOp) (k : BidKey) (d : Bid)
    (h : alookup (BidStore.run ops).primary k = some d) :
    ((d.bidder, Timestamp.seconds d.expires_at), k) ∈
        (BidStore.run ops).idx_bidder_expires_at ∧
    (∀ e ∈ (BidStore.run ops).idx_bidder_expires_at, e.2 = k →
      e.1 = (d.bidder, d.expires_at / 1000000000)) ∧
    Timestamp.seconds d.expires_at = d.expires_at / 1000000000 := by
  obtain ⟨-, hiff⟩ := (bidStore_inv_run ops).2.2.2.2.2
  refine ⟨?_, ?_, rfl⟩
  · exact (hiff (d.bidder, Timestamp.seconds d.expires_at) k).2 ⟨d, h, rfl⟩
  · rintro ⟨i, k2⟩ hin he
    dsimp only at he
    subst he
    obtain ⟨w, hw, hpw⟩ := (hiff i _).1 hin
    rw [h] at hw
    injection hw with hw2
    subst hw2
    rw [← hpw]
    rfl

def bidW3 : Bid := Bid.new "c" 7 "b3" 80 none 5000000123

/-- Closed witness for `bidder_expiry_index_seconds`: a bid expiring at
5000000123 ns is indexed under 5 whole seconds. -/
theorem bidder_expiry_index_seconds_witness :
    ((bidW3.bidder, Timestamp.seconds bidW3.expires_at), bid_key "c" 7 "b3") ∈
        (BidStore.run [BidOp.save (bid_key "c" 7 "b3") bidW3]).idx_bidder_expires_at ∧
    (∀ e ∈ (BidStore.run
        [BidOp.save (bid_key "c" 7 "b3") bidW3]).idx_bidder_expires_at,
      e.2 = bid_key "c" 7 "b3" →
        e.1 = (bidW3.bidder, bidW3.expires_at / 1000000000)) ∧
    Timestamp.seconds bidW3.expires_at = bidW3.expires_at / 1000000000 :=
  bidder_expiry_index_seconds [BidOp.save (bid_key "c" 7 "b3") bidW3]
    (bid_key "c" 7 "b3") bidW3 (by decide)

/-! ### Fixed-width big-endian price encoding

Modelled from the spec (§4.1): index keys use fixed-width integer encoding so
that numeric ordering matches byte ordering; the `u128` price component is
serialized as 16 big-endian bytes (`cw_storage_plus` key encoding, not in
`src/`). -/

/-- Big-endian base-256 digits of `n`, `w` bytes wide. -/
def beBytes : Nat → Nat → List Nat
  | 0, _ => []
  | w + 1, n => n / 256 ^ w :: beBytes w (n % 256 ^ w)

/-- The 16-byte big-endian encoding of a `u128` magnitude. -/
def u128ToBeBytes (n : Nat) : List Nat :=
  beBytes 16 n

/-- Lexicographic comparison of two byte strings. -/
def lexLe : List Nat → List Nat → Bool
  | [], _ => true
  | _ :: _, [] => false
  | x :: xs, y :: ys => if x < y then true else if x = y then lexLe xs ys else false

theorem lexLe_beBytes_iff (w : Nat) : ∀ a b : Nat, a < 256 ^ w → b < 256 ^ w →
    (lexLe (beBytes w a) (beBytes w b) = true ↔ a ≤ b) := by
  induction w with
  | zero =>
    intro a b ha hb
    have ha0 : a = 0 := Nat.lt_one_iff.1 (by simpa using ha)
    have hb0 : b = 0 := Nat.lt_one_iff.1 (by simpa using hb)
    subst ha0
    subst hb0
    simp [beBytes, lexLe]
  | succ w ih =>
    intro a b _ _
    have hB : 0 < 256 ^ w := Nat.pos_pow_of_pos w (by norm_num)
    have haq : a % 256 ^ w < 256 ^ w := Nat.mod_lt _ hB
    have hbq : b % 256 ^ w < 256 ^ w := Nat.mod_lt _ hB
    simp only [beBytes, lexLe]
    by_cases h1 : a / 256 ^ w < b / 256 ^ w
    · rw [if_pos h1]
      simp only [true_iff]
      exact le_of_lt (Nat.lt_of_div_lt_div h1)
    · rw [if_neg h1]
      by_cases h2 : a / 256 ^ w = b / 256 ^ w
      · rw [if_pos h2, ih _ _ haq hbq]
        constructor
        · intro hmod
          calc a = 256 ^ w * (a / 256 ^ w) + a % 256 ^ w :=
                (Nat.div_add_mod a _).symm
            _ ≤ 256 ^ w * (b / 256 ^ w) + b % 256 ^ w := by
                rw [h2]
                exact Nat.add_le_add_left hmod _
            _ = b := Nat.div_add_mod b _
        · intro hab
          have key : 256 ^ w * (b / 256 ^ w) + a % 256 ^ w ≤
              256 ^ w * (b / 256 ^ w) + b % 256 ^ w := by
            calc 256 ^ w * (b / 256 ^ w) + a % 256 ^ w
                = 256 ^ w * (a / 256 ^ w) + a % 256 ^ w := by rw [h2]
              _ = a := Nat.div_add_mod a _
              _ ≤ b := hab
              _ = 256 ^ w * (b / 256 ^ w) + b % 256 ^ w :=
                (Nat.div_add_mod b _).symm
          exact Nat.le_of_add_le_add_left key
      · rw [if_neg h2]
        have h3 : b / 256 ^ w < a / 256 ^ w :=
          lt_of_le_of_ne (Nat.le_of_not_lt h1) (fun h => h2 h.symm)
        have hba : b < a := Nat.lt_of_div_lt_div h3
        exact iff_of_false (by simp) (by omega)

theorem chain_lexLe_iff : ∀ ps : List Nat, (∀ p ∈ ps, p < 2 ^ 128) →
    (List.Chain' (fun x y => lexLe (u128ToBeBytes x) (u128ToBeBytes y) = true) ps ↔
      List.Chain' (fun x y => x ≤ y) ps)
  | [], _ => by simp
  | [x], _ =>
    Iff.intro (fun _ => List.chain'_singleton x) (fun _ => List.chain'_singleton x)
  | x :: y :: ys, h => by
    have hpow : (2 : Nat) ^ 128 = 256 ^ 16 := by norm_num
    have hx : x < 256 ^ 16 := hpow ▸ h x (by simp)
    have hy : y < 256 ^ 16 := hpow ▸ h y (by simp)
    have ih := chain_lexLe_iff (y :: ys)
      (fun p hp => h p (List.mem_cons_of_mem _ hp))
    rw [List.chain'_cons, List.chain'_cons, ih]
    exact and_congr_left' (lexLe_beBytes_iff 16 x y hx hy)

/-- C6: the collection_price indices project the price as a plain `u128`
magnitude, and the fixed-width big-endian encoding of that magnitude is
monotone — byte-lexicographic order coincides with numeric order — so an
ascending scan of a collection's price index yields non-decreasing numeric
prices. -/
theorem collection_price_numeric_order :
    (∀ a b : Nat, a < 2 ^ 128 → b < 2 ^ 128 →
      (lexLe (u128ToBeBytes a) (u128ToBeBytes b) = true ↔ a ≤ b)) ∧
    (∀ (pk : AskKey) (d : Ask),
      AskIndicies.collection_price pk d = (d.collection, Uint128.u128 d.price)) ∧
    (∀ (pk : BidKey) (d : Bid),
      BidIndicies.collection_price pk d = (d.collection, Uint128.u128 d.price)) ∧
    (∀ ps : List Nat, (∀ p ∈ ps, p < 2 ^ 128) →
      (List.Chain' (fun x y => lexLe (u128ToBeBytes x) (u128ToBeBytes y) = true) ps ↔
        List.Chain' (fun x y => x ≤ y) ps)) := by
  have hpow : (2 : Nat) ^ 128 = 256 ^ 16 := by norm_num
  refine ⟨?_, fun pk d => rfl, fun pk d => rfl, chain_lexLe_iff⟩
  intro a b ha hb
  exact lexLe_beBytes_iff 16 a b (hpow ▸ ha) (hpow ▸ hb)

/-- Closed witness for `collection_price_numeric_order`: prices 80 and 120,
and the price list [80, 100, 120]. -/
theorem collection_price_numeric_order_witness :
    (lexLe (u128ToBeBytes 80) (u128ToBeBytes 120) = true ↔ (80 : Nat) ≤ 120) ∧
    (List.Chain' (fun x y => lexLe (u128ToBeBytes x) (u128ToBeBytes y) = true)
        [80, 100, 120] ↔
      List.Chain' (fun x y => x ≤ y) [(80 : Nat), 100, 120]) :=
  ⟨collection_price_numeric_order.1 80 120 (by norm_num) (by norm_num),
    collection_price_numeric_order.2.2.2 [80, 100, 120] (by
      intro p hp
      simp only [List.mem_cons, List.not_mem_nil, or_false] at hp
      rcases hp with rfl | rfl | rfl <;> norm_num)⟩

/-! ### Hook registries -/

inductive HookError
  | Duplicate
  | NotFound
  | CapacityExceeded
deriving DecidableEq

/-- Modelled from the spec: the hook registry type behind
`ASK_HOOKS`/`BID_HOOKS`/`SALE_HOOKS` (the sg-controllers `Hooks`) is not in
`src/`.  Spec §4.4: a bounded list of listener addresses; `add(addr)` fails
with Duplicate if the address is already present, or with CapacityExceeded
if the bound is reached. -/
def Hooks.add_hook (bound : Nat) (hooks : List Addr) (addr : Addr) :
    Except HookError (List Addr) :=
  if addr ∈ hooks then Except.error HookError.Duplicate
  else if bound ≤ hooks.length then Except.error HookError.CapacityExceeded
  else Except.ok (hooks ++ [addr])

/-- Modelled from the spec (§4.4): `remove(addr)` fails with NotFound if the
address is absent, otherwise deletes it from the list. -/
def Hooks.remove_hook (hooks : List Addr) (addr : Addr) :
    Except HookError (List Addr) :=
  if addr ∈ hooks then Except.ok (hooks.erase addr)
  else Except.error HookError.NotFound

/-- C8: for a hook registry (each of ask-hooks, bid-hooks, sale-hooks is an
independent instance of the same structure): adding an already-registered
address fails with Duplicate (or CapacityExceeded when the bound is
reached), adding a fresh address to a full registry fails with
CapacityExceeded, removing an unregistered address fails with NotFound, and
an add followed by a remove of the same address leaves the registry empty. -/
theorem hooks_add_remove_behavior (bound : Nat) (hooks : List Addr)
    (a : Addr) (hpos : 0 < bound) :
    (a ∈ hooks →
      Hooks.add_hook bound hooks a = Except.error HookError.Duplicate ∨
        (bound ≤ hooks.length ∧
          Hooks.add_hook bound hooks a =
            Except.error HookError.CapacityExceeded)) ∧
    (a ∉ hooks → bound ≤ hooks.length →
      Hooks.add_hook bound hooks a = Except.error HookError.CapacityExceeded) ∧
    (a ∉ hooks →
      Hooks.remove_hook hooks a = Except.error HookError.NotFound) ∧
    (∃ l, Hooks.add_hook bound [] a = Except.ok l ∧
      Hooks.remove_hook l a = Except.ok []) := by
  refine ⟨?_, ?_, ?_, ?_⟩
  · intro h
    left
    simp [Hooks.add_hook, h]
  · intro h hlen
    simp [Hooks.add_hook, h, hlen]
  · intro h
    simp [Hooks.remove_hook, h]
  · refine ⟨[a], ?_, ?_⟩
    · simp [Hooks.add_hook, Nat.not_le.2 hpos]
    · simp [Hooks.remove_hook]

/-- Closed witness for `hooks_add_remove_behavior`: a registry of bound 10
already containing "x". -/
theorem hooks_add_remove_behavior_witness :
    ("x" ∈ ["x"] →
      Hooks.add_hook 10 ["x"] "x" = Except.error HookError.Duplicate ∨
        (10 ≤ (["x"] : List Addr).length ∧
          Hooks.add_hook 10 ["x"] "x" =
            Except.error HookError.CapacityExceeded)) ∧
    ("x" ∉ ["x"] → 10 ≤ (["x"] : List Addr).length →
      Hooks.add_hook 10 ["x"] "x" = Except.error HookError.CapacityExceeded) ∧
    ("x" ∉ ["x"] →
      Hooks.remove_hook ["x"] "x" = Except.error HookError.NotFound) ∧
    (∃ l, Hooks.add_hook 10 [] "x" = Except.ok l ∧
      Hooks.remove_hook l "x" = Except.ok []) :=
  hooks_add_remove_behavior 10 ["x"] "x" (by norm_num)

/-! ### Transactional discipline -/

/-- The whole persistent state touched by a transaction: both indexed stores
and the three hook registries. -/
structure MarketState where
  asks : AskStore
  bids : BidStore
  ask_hooks : List Addr
  bid_hooks : List Addr
  sale_hooks : List Addr

/-- Modelled from the spec: the contract's execute entry points are not in
`src/`.  Spec §5: each externally triggered call is one transaction; staged
writes become durable only on full success, and on any error every write is
discarded.  A transaction is a function from the current state to either a
fully staged new state or an error; `runTx` commits only on success. -/
def runTx {E : Type} (op : MarketState → Except E MarketState)
    (s : MarketState) : MarketState :=
  match op s with
  | Except.ok s2 => s2
  | Except.error _ => s

/-- C9: if an externally triggered operation raises any error mid-execution,
the whole transaction aborts: the durable state — primary tables, every
secondary index, and the hook registries — is exactly what it was before the
call. -/
theorem tx_atomic_on_error {E : Type}
    (op : MarketState → Except E MarketState) (s : MarketState) (e : E)
    (h : op s = Except.error e) :
    runTx op s = s ∧
    (runTx op s).asks.primary = s.asks.primary ∧
    (runTx op s).asks.idx_collection = s.asks.idx_collection ∧
    (runTx op s).asks.idx_collection_price = s.asks.idx_collection_price ∧
    (runTx op s).asks.idx_seller = s.asks.idx_seller ∧
    (runTx op s).bids.primary = s.bids.primary ∧
    (runTx op s).bids.idx_collection = s.bids.idx_collection ∧
    (runTx op s).bids.idx_collection_token_id = s.bids.idx_collection_token_id ∧
    (runTx op s).bids.idx_collection_price = s.bids.idx_collection_price ∧
    (runTx op s).bids.idx_bidder = s.bids.idx_bidder ∧
    (runTx op s).bids.idx_bidder_expires_at = s.bids.idx_bidder_expires_at ∧
    (runTx op s).ask_hooks = s.ask_hooks ∧
    (runTx op s).bid_hooks = s.bid_hooks ∧
    (runTx op s).sale_hooks = s.sale_hooks := by
  have hs : runTx op s = s := by
    simp [runTx, h]
  rw [hs]
  exact ⟨rfl, rfl, rfl, rfl, rfl, rfl, rfl, rfl, rfl, rfl, rfl, rfl, rfl, rfl⟩

/-- A concrete pre-state with one ask and one bid stored. -/
def mstW : MarketState :=
  { asks := AskStore.run [AskOp.save ("c", 7) askW],
    bids := BidStore.run [BidOp.save (bid_key "c" 7 "b1") bidW1],
    ask_hooks := ["h1"], bid_hooks := [], sale_hooks := [] }

/-- Closed witness for `tx_atomic_on_error`: an operation that fails with
NotFound leaves the concrete pre-state untouched. -/
theorem tx_atomic_on_error_witness :
    runTx (fun _ => Except.error HookError.NotFound) mstW = mstW ∧
    (runTx (fun _ => Except.error HookError.NotFound) mstW).asks.primary =
      mstW.asks.primary ∧
    (runTx (fun _ => Except.error HookError.NotFound) mstW).asks.idx_collection =
      mstW.asks.idx_collection ∧
    (runTx (fun _ => Except.error HookError.NotFound) mstW).asks.idx_collection_price =
      mstW.asks.idx_collection_price ∧
    (runTx (fun _ => Except.error HookError.NotFound) mstW).asks.idx_seller =
      mstW.asks.idx_seller ∧
    (runTx (fun _ => Except.error HookError.NotFound) mstW).bids.primary =
      mstW.bids.primary ∧
    (runTx (fun _ => Except.error HookError.NotFound) mstW).bids.idx_collection =
      mstW.bids.idx_collection ∧
    (runTx (fun _ => Except.error HookError.NotFound) mstW).bids.idx_collection_token_id =
      mstW.bids.idx_collection_token_id ∧
    (runTx (fun _ => Except.error HookError.NotFound) mstW).bids.idx_collection_price =
      mstW.bids.idx_collection_price ∧
    (runTx (fun _ => Except.error HookError.NotFound) mstW).bids.idx_bidder =
      mstW.bids.idx_bidder ∧
    (runTx (fun _ => Except.error HookError.NotFound) mstW).bids.idx_bidder_expires_at =
      mstW.bids.idx_bidder_expires_at ∧
    (runTx (fun _ => Except.error HookError.NotFound) mstW).ask_hooks =
      mstW.ask_hooks ∧
    (runTx (fun _ => Except.error HookError.NotFound) mstW).bid_hooks =
      mstW.bid_hooks ∧
    (runTx (fun _ => Except.error HookError.NotFound) mstW).sale_hooks =
      mstW.sale_hooks :=
  tx_atomic_on_error (fun _ => Except.error HookError.NotFound) mstW
    HookError.NotFound rfl
